import Mathlib

/-!
Verification of the paragraph reconstruction algorithm in
`modules/ml/preprocessor/utils.py` (`tika_convert_files_to_dicts`).

Strings are embedded as `List Char` (ASCII model: Python whitespace is
modelled by the six ASCII whitespace characters, and `str.islower` on a
single character by the ASCII range, which coincides with `Char.isLower`).
The per-document body of `tika_convert_files_to_dicts` (the part after the
converter has produced `text` and `meta`) is embedded as `tika_process`;
directory traversal and the Tika converter itself are external collaborators.
-/

/-- The ASCII whitespace characters recognised by Python's `str.strip()`
and by the regex class `\s` (space, tab, newline, carriage return,
vertical tab, form feed). -/
def isSpacePy (c : Char) : Bool :=
  c = ' ' || c = '\t' || c = '\n' || c = '\r' || c = '\x0b' || c = '\x0c'

/-- Python `str.strip()`: drop leading and trailing whitespace. -/
def pyStrip (s : List Char) : List Char :=
  ((s.dropWhile isSpacePy).reverse.dropWhile isSpacePy).reverse

/-- Python `str.split(sep)` for a one-character separator `a`:
split on every occurrence, keeping empty parts; always returns at
least one part (`"".split(sep) == [""]`). -/
def pySplit1 (a : Char) : List Char → List (List Char)
  | [] => [[]]
  | c :: rest =>
    if c = a then [] :: pySplit1 a rest
    else (c :: (pySplit1 a rest).headD []) :: (pySplit1 a rest).tail

/-- Python `str.split(sep)` for a two-character separator `[a, b]`:
leftmost non-overlapping occurrences, keeping empty parts. -/
def pySplit2 (a b : Char) : List Char → List (List Char)
  | [] => [[]]
  | [c] => [[c]]
  | c :: d :: rest =>
    if c = a && d = b then [] :: pySplit2 a b rest
    else (c :: (pySplit2 a b (d :: rest)).headD []) :: (pySplit2 a b (d :: rest)).tail

/-- Helper for `wsRuns`: counts maximal whitespace runs, the flag records
whether the previous character was whitespace. -/
def wsRunsAux : Bool → List Char → Nat
  | _, [] => 0
  | inRun, c :: rest =>
    if isSpacePy c then (if inRun then 0 else 1) + wsRunsAux true rest
    else wsRunsAux false rest

/-- Python regex count of whitespace runs: the length of the findall of
the regex class backslash-s-plus over `s`, i.e. the number of maximal
runs of whitespace characters in `s`. -/
def wsRuns (s : List Char) : Nat := wsRunsAux false s

/-- The single-quote character (ASCII 39). -/
def quoteChar : Char := Char.ofNat 39

/-- The characters of the Python raw punctuation string (dot, question
mark, exclamation mark, double quote, backslash-quote, backslash-bracket,
backslash-paren) used for the `last_para[-1] not in ...` test.  In a raw
string the escape sequences keep their backslashes, so the string contains
three literal backslashes besides the quote, bracket and paren. -/
def punctChars : List Char :=
  ['.', '?', '!', '"', '\\', quoteChar, '\\', ']', '\\', ')']

/-- The merge condition of the merge pass, with the Python operator
precedence (`and` binds tighter than `or`): merge_short and the stripped
length below 10, or fewer than 2 whitespace runs, or merge_lowercase and
the paragraph non-empty and its first character lowercase and last_para
non-empty and the last character of last_para outside `punctChars`. -/
def mergeCond (merge_short merge_lowercase : Bool) (para last_para : List Char) : Bool :=
  (merge_short && decide (para.length < 10))
  || decide (wsRuns para < 2)
  || (merge_lowercase && !para.isEmpty && (para.headD ' ').isLower
      && !last_para.isEmpty && !punctChars.contains (last_para.getLastD ' '))

/-- One `{text, meta}` record appended to `documents`. -/
structure OutputParagraph (μ : Type) where
  text : List Char
  meta : μ
deriving DecidableEq

/-- One iteration of the merge pass: strip the incoming raw paragraph,
skip it when empty, otherwise either append `' ' + para` to `last_para`
(merge) or flush the non-empty `last_para` and start afresh.  The state is
`(documents, last_para)`. -/
def mergeStep {μ : Type} (merge_short merge_lowercase : Bool) (meta : μ)
    (acc : List (OutputParagraph μ) × List Char) (p : List Char) :
    List (OutputParagraph μ) × List Char :=
  let para := pyStrip p
  if para.isEmpty then acc
  else if mergeCond merge_short merge_lowercase para acc.2 then
    (acc.1, acc.2 ++ ' ' :: para)
  else if acc.2.isEmpty then (acc.1, para)
  else (acc.1 ++ [⟨acc.2, meta⟩], para)

/-- The merge pass loop `for para in paras`. -/
def mergeLoop {μ : Type} (merge_short merge_lowercase : Bool) (meta : μ) :
    List (OutputParagraph μ) × List Char → List (List Char) →
    List (OutputParagraph μ) × List Char
  | acc, [] => acc
  | acc, p :: rest =>
    mergeLoop merge_short merge_lowercase meta
      (mergeStep merge_short merge_lowercase meta acc p) rest

/-- The whole merge pass over `paras`, starting from `last_para = ''`,
flushing the final non-empty `last_para`. -/
def mergePass {μ : Type} (merge_short merge_lowercase : Bool) (meta : μ)
    (paras : List (List Char)) : List (OutputParagraph μ) :=
  let acc := mergeLoop merge_short merge_lowercase meta ([], []) paras
  if acc.2.isEmpty then acc.1 else acc.1 ++ [⟨acc.2, meta⟩]

/-- The `for page in pages[1:]` loop: split the page on blank lines,
prepend `last_para + ' '` to its first paragraph, pop the (new) last
paragraph as the next `last_para`, append the rest to `paras`.  The state
is `(paras, last_para)`. -/
def spliceLoop : List (List Char) × List Char → List (List Char) →
    List (List Char) × List Char
  | acc, [] => acc
  | acc, page :: rest =>
    match pySplit2 '\n' '\n' page with
    | [] => spliceLoop acc rest
    | q0 :: qrest =>
      let modified := (acc.2 ++ ' ' :: q0) :: qrest
      spliceLoop (acc.1 ++ modified.dropLast, modified.getLastD []) rest

/-- Lines 241-252 of the source: split page 0, pop its last paragraph as
the initial `last_para`, run the splice loop over the remaining pages and
finally append the pending `last_para` when non-empty. -/
def buildParas (p0 : List Char) (rest : List (List Char)) : List (List Char) :=
  let paras0 := pySplit2 '\n' '\n' p0
  let last0 := if paras0.isEmpty then [] else paras0.getLastD []
  let acc := spliceLoop (paras0.dropLast, last0) rest
  if acc.2.isEmpty then acc.1 else acc.1 ++ [acc.2]

/-- The per-document body of `tika_convert_files_to_dicts` (lines
236-276): split the converter text into pages on the form feed, then
either reconstruct paragraphs (`split_paragraphs` true) or emit the
(optionally cleaned) full text as a single record. -/
def tika_process {μ : Type} (clean_func : Option (List Char → List Char))
    (split_paragraphs merge_short merge_lowercase : Bool)
    (text : List Char) (meta : μ) : List (OutputParagraph μ) :=
  let pages := pySplit1 '\x0c' text
  if split_paragraphs then
    match pages with
    | [] => []
    | p0 :: rest =>
      let paras := buildParas p0 rest
      if paras.isEmpty then []
      else mergePass merge_short merge_lowercase meta paras
  else
    let t := match clean_func with
      | some f => f text
      | none => text
    [⟨t, meta⟩]

/-- Coercion from Lean string literals to the character-list embedding. -/
def strC (s : String) : List Char := s.data

/-- The non-whitespace characters of a string, in order. -/
def nws (s : List Char) : List Char := s.filter (fun c => !isSpacePy c)

/-- Evaluation of the merge condition mirroring Python's left-to-right
short-circuit order; the accesses `para[0]` and `last_para[-1]` are
modelled by `head?` / `getLast?` and return `none` exactly when the
corresponding Python indexing would raise. -/
def mergeCondChecked (merge_short merge_lowercase : Bool) (para last_para : List Char) :
    Option Bool :=
  if merge_short && decide (para.length < 10) then some true
  else if wsRuns para < 2 then some true
  else if merge_lowercase then
    if para.isEmpty then some false
    else match para.head? with
      | none => none
      | some c =>
        if !c.isLower then some false
        else if last_para.isEmpty then some false
        else match last_para.getLast? with
          | none => none
          | some d => some (!punctChars.contains d)
  else some false

/-- Checked variant of `mergeStep`; `none` propagates a
would-be IndexError. -/
def mergeStepChecked {μ : Type} (merge_short merge_lowercase : Bool) (meta : μ)
    (acc : List (OutputParagraph μ) × List Char) (p : List Char) :
    Option (List (OutputParagraph μ) × List Char) :=
  if (pyStrip p).isEmpty then some acc
  else match mergeCondChecked merge_short merge_lowercase (pyStrip p) acc.2 with
    | none => none
    | some true => some (acc.1, acc.2 ++ ' ' :: pyStrip p)
    | some false =>
      if acc.2.isEmpty then some (acc.1, pyStrip p)
      else some (acc.1 ++ [⟨acc.2, meta⟩], pyStrip p)

/-- The merge loop with checked steps. -/
def mergeLoopChecked {μ : Type} (merge_short merge_lowercase : Bool) (meta : μ) :
    List (OutputParagraph μ) × List Char → List (List Char) →
    Option (List (OutputParagraph μ) × List Char)
  | acc, [] => some acc
  | acc, p :: rest =>
    match mergeStepChecked merge_short merge_lowercase meta acc p with
    | none => none
    | some acc2 => mergeLoopChecked merge_short merge_lowercase meta acc2 rest

/-- The splice loop with checked accesses: `page_paras[0]` is `head?` and
`page_paras.pop(-1)` (after the in-place update of index 0) is
`getLast?`, both executed only under the `if page_paras:` guard as in the
source. -/
def spliceLoopChecked : List (List Char) × List Char → List (List Char) →
    Option (List (List Char) × List Char)
  | acc, [] => some acc
  | acc, page :: rest =>
    if (pySplit2 '\n' '\n' page).isEmpty then spliceLoopChecked acc rest
    else match (pySplit2 '\n' '\n' page).head? with
      | none => none
      | some q0 =>
        match ((acc.2 ++ ' ' :: q0) :: (pySplit2 '\n' '\n' page).tail).getLast? with
        | none => none
        | some last =>
          spliceLoopChecked
            (acc.1 ++ ((acc.2 ++ ' ' :: q0) :: (pySplit2 '\n' '\n' page).tail).dropLast,
             last) rest

/-- The whole per-document body with every indexing (`pages[0]`,
`paras.pop(-1)`, `page_paras[0]`, `page_paras.pop(-1)`, `para[0]`,
`last_para[-1]`) modelled as a fallible access under exactly the guards
present in the source; `none` means the Python code would have raised. -/
def tika_processChecked {μ : Type} (clean_func : Option (List Char → List Char))
    (split_paragraphs merge_short merge_lowercase : Bool)
    (text : List Char) (meta : μ) : Option (List (OutputParagraph μ)) :=
  if split_paragraphs then
    if (pySplit1 '\x0c' text).isEmpty then some []
    else match (pySplit1 '\x0c' text).head? with
      | none => none
      | some p0 =>
        match (if (pySplit2 '\n' '\n' p0).isEmpty then some []
               else (pySplit2 '\n' '\n' p0).getLast?) with
        | none => none
        | some last0 =>
          match spliceLoopChecked ((pySplit2 '\n' '\n' p0).dropLast, last0)
                  (pySplit1 '\x0c' text).tail with
          | none => none
          | some acc =>
            match (if acc.2.isEmpty then acc.1 else acc.1 ++ [acc.2]) with
            | [] => some []
            | q :: qs =>
              match mergeLoopChecked merge_short merge_lowercase meta ([], [])
                      (q :: qs) with
              | none => none
              | some r =>
                some (if r.2.isEmpty then r.1 else r.1 ++ [⟨r.2, meta⟩])
  else
    some [⟨(match clean_func with | some f => f text | none => text), meta⟩]

/-- Claim C1 (counterexample): on the single-page example the first emitted
paragraph is not the claimed text — the merge branch executes
`last_para += ' ' + para` even when `last_para` is empty, so the first
output carries a leading space. -/
theorem C1_counterexample :
    (tika_process (μ := Unit) none true true true
      (strC "Hello world.\n\nthis continues.\n\nA New Topic Here Clearly.") ()).map
        OutputParagraph.text
      ≠ [strC "Hello world. this continues.", strC "A New Topic Here Clearly."] := by
  decide

/-- Claim C1 (amended): the single-page example with default options yields
exactly two OutputParagraphs, the first being the two merged sentences with
one leading space, the second the capitalised paragraph. -/
theorem C1_amended :
    (tika_process (μ := Unit) none true true true
      (strC "Hello world.\n\nthis continues.\n\nA New Topic Here Clearly.") ()).map
        OutputParagraph.text
      = [strC " Hello world. this continues.", strC "A New Topic Here Clearly."] := by
  decide

/-- Claim C2 (counterexample): the splice inserts a joining space between
the page-1 tail and the page-2 head, and the merge pass then merges
"Second paragraph." (fewer than two whitespace runs) into the pending
paragraph, so the claimed pair of outputs is not produced. -/
theorem C2_counterexample :
    (tika_process (μ := Unit) none true true true
      (strC "...end of pa\x0cragraph one.\n\nSecond paragraph.") ()).map
        OutputParagraph.text
      ≠ [strC "...end of paragraph one.", strC "Second paragraph."] := by
  decide

/-- Claim C2 (amended): on the two-page example the code produces one
single OutputParagraph: the splice yields "...end of pa ragraph one."
(joining space included) and the merge pass absorbs "Second paragraph."
into it because that paragraph has fewer than two whitespace runs. -/
theorem C2_amended :
    (tika_process (μ := Unit) none true true true
      (strC "...end of pa\x0cragraph one.\n\nSecond paragraph.") ()).map
        OutputParagraph.text
      = [strC "...end of pa ragraph one. Second paragraph."] := by
  decide

/-- Claim C3 (counterexample): the source's punctuation raw string contains
literal backslashes, so a pending paragraph ending in a backslash — whose
last character is outside the claim's set {. ? ! " ' ] )} — is flushed,
not merged, when a lowercase-starting paragraph follows. -/
theorem C3_counterexample :
    ((pyStrip (strC "lower case words here")).headD ' ').isLower = true
    ∧ strC "abc def gh\\" ≠ []
    ∧ (strC "abc def gh\\").getLastD ' ' ∉ ['.', '?', '!', '"', quoteChar, ']', ')']
    ∧ mergeStep true true () ([], strC "abc def gh\\") (strC "lower case words here")
        ≠ ([], strC "abc def gh\\" ++ ' ' :: pyStrip (strC "lower case words here"))
    ∧ mergeStep true true () ([], strC "abc def gh\\") (strC "lower case words here")
        = ([⟨strC "abc def gh\\", ()⟩], strC "lower case words here") := by
  refine ⟨by decide, by decide, by decide, by decide, by decide⟩

/-- Claim C3 (amended): with `merge_lowercase = true`, a stripped raw
paragraph whose first character is lowercase, arriving while `last_para`
is non-empty and `last_para`'s last character is not in the code's set
{. ? ! " \ ' ] )} (the raw string keeps its backslashes), is merged into
the pending paragraph with a single joining space. -/
theorem C3_amended_lowercase_merge {μ : Type} (merge_short : Bool) (meta : μ)
    (docs : List (OutputParagraph μ)) (last_para p : List Char)
    (hp : pyStrip p ≠ [])
    (hlow : ((pyStrip p).headD ' ').isLower = true)
    (hlp : last_para ≠ [])
    (hpunct : punctChars.contains (last_para.getLastD ' ') = false) :
    mergeStep merge_short true meta (docs, last_para) p
      = (docs, last_para ++ ' ' :: pyStrip p) := by
  have hpe : (pyStrip p).isEmpty = false := by
    cases h : pyStrip p with
    | nil => exact absurd h hp
    | cons a l => rfl
  have hle : last_para.isEmpty = false := by
    cases h : last_para with
    | nil => exact absurd h hlp
    | cons a l => rfl
  have hcond : mergeCond merge_short true (pyStrip p) last_para = true := by
    simp only [mergeCond, hpe, hle, hlow, hpunct, Bool.not_false, Bool.and_true,
      Bool.true_and, Bool.or_true]
  simp [mergeStep, hpe, hcond]

/-- Witness for C3_amended_lowercase_merge at a concrete state. -/
theorem C3_amended_witness :
    mergeStep true true () ([], strC "abc") (strC "hello there you")
      = ([], strC "abc" ++ ' ' :: pyStrip (strC "hello there you")) :=
  C3_amended_lowercase_merge true () [] (strC "abc") (strC "hello there you")
    (by decide) (by decide) (by decide) (by decide)

/-- Claim C4 (counterexample): the short raw paragraph "short" (5 < 10
characters) is emitted standalone (as " short") although the document
contains a second paragraph: it became the pending paragraph while the
accumulator was empty and the next paragraph triggered a flush. -/
theorem C4_counterexample :
    (tika_process (μ := Unit) none true true true
      (strC "short\n\nA Big Paragraph With Many Words Here.") ()).map
        OutputParagraph.text
      = [strC " short", strC "A Big Paragraph With Many Words Here."]
    ∧ (pyStrip (strC "short")).length < 10
    ∧ (pySplit2 '\n' '\n'
        (strC "short\n\nA Big Paragraph With Many Words Here.")).length = 2 := by
  refine ⟨by decide, by decide, by decide⟩

/-- Claim C4 (amended): with `merge_short = true`, a raw paragraph whose
stripped length is below 10 never causes a flush at its own step — the
documents sequence is unchanged, the paragraph being absorbed into (or
starting) the pending accumulator.  It can still be emitted standalone
later, when it became the pending paragraph while the accumulator was
empty and the next paragraph fails the merge condition. -/
theorem C4_amended_short_never_flushes {μ : Type} (merge_lowercase : Bool) (meta : μ)
    (acc : List (OutputParagraph μ) × List Char) (p : List Char)
    (hlen : (pyStrip p).length < 10) :
    (mergeStep true merge_lowercase meta acc p).1 = acc.1 := by
  unfold mergeStep
  by_cases hpe : (pyStrip p).isEmpty
  · simp [hpe]
  · have hcond : mergeCond true merge_lowercase (pyStrip p) acc.2 = true := by
      simp [mergeCond, hlen]
    simp [hpe, hcond]

/-- Witness for C4_amended_short_never_flushes at a concrete state. -/
theorem C4_amended_witness :
    (pyStrip (strC "short")).length < 10
    ∧ (mergeStep true true () ([], strC "abc") (strC "short")).1 = [] :=
  ⟨by decide,
   C4_amended_short_never_flushes true () ([], strC "abc") (strC "short") (by decide)⟩

/-- Claim C7: with `split_paragraphs = false` the reconstruction is skipped
and exactly one OutputParagraph is emitted, holding the (optionally
cleaned) full converter text and the document metadata, for every input. -/
theorem C7_no_split_single_output {μ : Type} (clean_func : Option (List Char → List Char))
    (merge_short merge_lowercase : Bool) (text : List Char) (meta : μ) :
    tika_process clean_func false merge_short merge_lowercase text meta
      = [⟨(match clean_func with | some f => f text | none => text), meta⟩] := rfl

/-- Claim C10: with `split_paragraphs = true` the cleaning function is
never invoked — the output is identical for any two choices of
`clean_func` on the same converter text. -/
theorem C10_clean_func_unused_when_split {μ : Type}
    (cf1 cf2 : Option (List Char → List Char)) (merge_short merge_lowercase : Bool)
    (text : List Char) (meta : μ) :
    tika_process cf1 true merge_short merge_lowercase text meta
      = tika_process cf2 true merge_short merge_lowercase text meta := rfl

theorem pySplit1_ne_nil (a : Char) (s : List Char) : pySplit1 a s ≠ [] := by
  cases s with
  | nil => simp [pySplit1]
  | cons c rest =>
    unfold pySplit1
    by_cases h : c = a <;> simp [h]

theorem pySplit2_ne_nil (a b : Char) (s : List Char) : pySplit2 a b s ≠ [] := by
  match s with
  | [] => simp [pySplit2]
  | [c] => simp [pySplit2]
  | c :: d :: rest =>
    unfold pySplit2
    by_cases h : c = a ∧ d = b
    · simp [h]
    · rw [if_neg (by simpa using h)]
      simp

theorem flatten_headD_tail {α : Type} {l : List (List α)} (h : l ≠ []) :
    l.headD [] ++ l.tail.flatten = l.flatten := by
  cases l with
  | nil => exact absurd rfl h
  | cons x xs => simp

theorem flatten_dropLast_getLastD {α : Type} (l : List (List α)) (h : l ≠ []) :
    l.dropLast.flatten ++ l.getLastD [] = l.flatten := by
  conv_rhs => rw [← List.dropLast_append_getLast h]
  rw [List.flatten_append]
  simp [List.getLastD_eq_getLast?, List.getLast?_eq_getLast l h]

theorem nws_append (a b : List Char) : nws (a ++ b) = nws a ++ nws b :=
  List.filter_append a b

theorem nws_cons (c : Char) (s : List Char) :
    nws (c :: s) = if isSpacePy c then nws s else c :: nws s := by
  by_cases h : isSpacePy c <;> simp [nws, List.filter_cons, h]

theorem nws_dropWhile (s : List Char) : nws (s.dropWhile isSpacePy) = nws s := by
  induction s with
  | nil => rfl
  | cons c rest ih =>
    rw [List.dropWhile_cons]
    by_cases h : isSpacePy c = true
    · rw [if_pos h, ih, nws_cons, if_pos h]
    · rw [if_neg h]

theorem nws_reverse (s : List Char) : nws s.reverse = (nws s).reverse :=
  List.filter_reverse _ s

theorem nws_pyStrip (s : List Char) : nws (pyStrip s) = nws s := by
  unfold pyStrip
  rw [nws_reverse, nws_dropWhile, nws_reverse, List.reverse_reverse, nws_dropWhile]

theorem nws_flatten_pySplit1 {a : Char} (ha : isSpacePy a = true) (s : List Char) :
    nws (pySplit1 a s).flatten = nws s := by
  induction s with
  | nil => simp [pySplit1, nws]
  | cons c rest ih =>
    unfold pySplit1
    by_cases h : c = a
    · rw [if_pos h, List.flatten_cons, List.nil_append, ih, nws_cons,
        if_pos (h ▸ ha)]
    · rw [if_neg h, List.flatten_cons, List.cons_append,
        flatten_headD_tail (pySplit1_ne_nil a rest), nws_cons, nws_cons, ih]

theorem nws_flatten_pySplit2 {a b : Char} (ha : isSpacePy a = true)
    (hb : isSpacePy b = true) :
    ∀ (n : Nat) (s : List Char), s.length ≤ n →
      nws (pySplit2 a b s).flatten = nws s := by
  intro n
  induction n with
  | zero =>
    intro s hs
    have : s = [] := List.length_eq_zero.mp (Nat.le_zero.mp hs)
    subst this
    simp [pySplit2, nws]
  | succ n ih =>
    intro s hs
    match s with
    | [] => simp [pySplit2, nws]
    | [c] => simp [pySplit2, nws]
    | c :: d :: rest =>
      unfold pySplit2
      by_cases h : c = a ∧ d = b
      · rw [if_pos (by simp [h.1, h.2]), List.flatten_cons, List.nil_append,
          ih rest (by simpa using Nat.le_of_succ_le_succ (Nat.le_of_succ_le hs)),
          nws_cons, nws_cons, if_pos (h.1 ▸ ha), if_pos (h.2 ▸ hb)]
      · rw [if_neg (by simpa using h), List.flatten_cons, List.cons_append,
          flatten_headD_tail (pySplit2_ne_nil a b (d :: rest)), nws_cons, nws_cons,
          ih (d :: rest) (by simpa using Nat.le_of_succ_le_succ hs)]

theorem flatten_dropLast_getLastD_append {α : Type} (l : List (List α)) (h : l ≠ [])
    (X : List α) : l.dropLast.flatten ++ (l.getLastD [] ++ X) = l.flatten ++ X := by
  rw [← List.append_assoc, flatten_dropLast_getLastD l h]

theorem spliceLoop_nws :
    ∀ (pages : List (List Char)) (acc : List (List Char) × List Char),
      nws ((spliceLoop acc pages).1.flatten ++ (spliceLoop acc pages).2)
        = nws (acc.1.flatten ++ (acc.2 ++ pages.flatten)) := by
  intro pages
  induction pages with
  | nil => intro acc; simp [spliceLoop]
  | cons page rest ih =>
    intro acc
    unfold spliceLoop
    cases hpp : pySplit2 '\n' '\n' page with
    | nil => exact absurd hpp (pySplit2_ne_nil _ _ _)
    | cons q0 qrest =>
      rw [ih]
      have hpage : nws page = nws q0 ++ nws qrest.flatten := by
        have h2 := nws_flatten_pySplit2 (a := '\n') (b := '\n') (by decide) (by decide)
          page.length page (Nat.le_refl _)
        rw [hpp, List.flatten_cons, nws_append] at h2
        exact h2.symm
      simp only [List.flatten_append, List.append_assoc,
        flatten_dropLast_getLastD_append _ (List.cons_ne_nil _ _),
        List.flatten_cons, nws_append, nws_cons, hpage]
      simp [isSpacePy]

theorem mergeStep_nws {μ : Type} (merge_short merge_lowercase : Bool) (meta : μ)
    (acc : List (OutputParagraph μ) × List Char) (p X : List Char) :
    nws (((mergeStep merge_short merge_lowercase meta acc p).1.map
        OutputParagraph.text).flatten
      ++ ((mergeStep merge_short merge_lowercase meta acc p).2 ++ X))
    = nws ((acc.1.map OutputParagraph.text).flatten ++ (acc.2 ++ (p ++ X))) := by
  unfold mergeStep
  by_cases he : (pyStrip p).isEmpty
  · have hnp : nws p = [] := by
      have h1 := nws_pyStrip p
      rw [List.isEmpty_iff.mp he] at h1
      exact h1.symm
    simp [he, nws_append, hnp]
  · rw [if_neg he]
    by_cases hc : mergeCond merge_short merge_lowercase (pyStrip p) acc.2
    · simp [hc, nws_append, nws_cons, isSpacePy, nws_pyStrip]
    · rw [if_neg hc]
      by_cases ha : acc.2.isEmpty
      · have hna : nws acc.2 = [] := by rw [List.isEmpty_iff.mp ha]; rfl
        simp [ha, nws_append, nws_pyStrip, hna]
      · simp [ha, nws_append, nws_pyStrip]

theorem mergeLoop_nws {μ : Type} (merge_short merge_lowercase : Bool) (meta : μ) :
    ∀ (paras : List (List Char)) (acc : List (OutputParagraph μ) × List Char),
      nws (((mergeLoop merge_short merge_lowercase meta acc paras).1.map
          OutputParagraph.text).flatten
        ++ (mergeLoop merge_short merge_lowercase meta acc paras).2)
      = nws ((acc.1.map OutputParagraph.text).flatten ++ (acc.2 ++ paras.flatten)) := by
  intro paras
  induction paras with
  | nil => intro acc; simp [mergeLoop]
  | cons p rest ih =>
    intro acc
    show nws (((mergeLoop merge_short merge_lowercase meta _ rest).1.map
        OutputParagraph.text).flatten
      ++ (mergeLoop merge_short merge_lowercase meta _ rest).2) = _
    rw [ih]
    have hstep := mergeStep_nws merge_short merge_lowercase meta acc p rest.flatten
    rw [List.flatten_cons, ← List.append_assoc acc.2 p rest.flatten]
    rw [List.append_assoc acc.2 p rest.flatten]
    exact hstep

theorem mergePass_nws {μ : Type} (merge_short merge_lowercase : Bool) (meta : μ)
    (paras : List (List Char)) :
    nws (((mergePass merge_short merge_lowercase meta paras).map
      OutputParagraph.text).flatten) = nws paras.flatten := by
  unfold mergePass
  have h := mergeLoop_nws merge_short merge_lowercase meta paras ([], [])
  simp only [List.map_nil, List.flatten_nil, List.nil_append] at h
  by_cases he : (mergeLoop merge_short merge_lowercase meta ([], []) paras).2.isEmpty
  · rw [if_pos he]
    rw [List.isEmpty_iff.mp he, List.append_nil] at h
    exact h
  · rw [if_neg he]
    simpa [nws_append] using h

theorem buildParas_nws (p0 : List Char) (rest : List (List Char)) :
    nws (buildParas p0 rest).flatten = nws (p0 ++ rest.flatten) := by
  have h0 := pySplit2_ne_nil '\n' '\n' p0
  have h0e : (pySplit2 '\n' '\n' p0).isEmpty = false := by
    cases hh : pySplit2 '\n' '\n' p0 with
    | nil => exact absurd hh h0
    | cons x xs => rfl
  simp only [buildParas]
  rw [h0e]
  have hs := spliceLoop_nws rest ((pySplit2 '\n' '\n' p0).dropLast,
    (pySplit2 '\n' '\n' p0).getLastD [])
  simp only [Bool.false_eq_true, if_false] at hs ⊢
  have hp0 : nws (pySplit2 '\n' '\n' p0).flatten = nws p0 :=
    nws_flatten_pySplit2 (by decide) (by decide) p0.length p0 (Nat.le_refl _)
  by_cases he : (spliceLoop ((pySplit2 '\n' '\n' p0).dropLast,
      (pySplit2 '\n' '\n' p0).getLastD []) rest).2.isEmpty
  · rw [if_pos he]
    rw [List.isEmpty_iff.mp he] at hs
    rw [List.append_nil] at hs
    rw [hs, flatten_dropLast_getLastD_append _ h0, nws_append, nws_append, hp0]
  · rw [if_neg he]
    rw [List.flatten_append, List.flatten_cons, List.flatten_nil, List.append_nil,
      nws_append, ← nws_append, hs,
      flatten_dropLast_getLastD_append _ h0, nws_append, nws_append, hp0]

theorem tika_split_nws {μ : Type} (clean_func : Option (List Char → List Char))
    (merge_short merge_lowercase : Bool) (text : List Char) (meta : μ) :
    nws (((tika_process clean_func true merge_short merge_lowercase text meta).map
      OutputParagraph.text).flatten) = nws text := by
  have htext : nws (pySplit1 '\x0c' text).flatten = nws text :=
    nws_flatten_pySplit1 (by decide) text
  simp only [tika_process, eq_self_iff_true, if_true]
  cases hp : pySplit1 '\x0c' text with
  | nil => exact absurd hp (pySplit1_ne_nil _ _)
  | cons p0 rest =>
    simp only []
    rw [hp, List.flatten_cons, nws_append] at htext
    have hbp := buildParas_nws p0 rest
    rw [nws_append] at hbp
    by_cases hb : (buildParas p0 rest).isEmpty
    · rw [if_pos hb]
      rw [List.isEmpty_iff.mp hb] at hbp
      simp only [List.flatten_nil] at hbp
      have hnil : nws p0 ++ nws rest.flatten = [] := by
        rw [← hbp]; rfl
      rw [← htext, hnil]
      rfl
    · rw [if_neg hb]
      rw [mergePass_nws, hbp, htext]

/-- Claim C5: with `split_paragraphs = true`, the concatenation of all
emitted OutputParagraph texts reproduces every non-whitespace character of
the input text, in original reading order (whitespace — in particular the
inserted joining spaces — is ignored on both sides). -/
theorem C5_content_conservation {μ : Type} (clean_func : Option (List Char → List Char))
    (merge_short merge_lowercase : Bool) (text : List Char) (meta : μ) :
    nws (((tika_process clean_func true merge_short merge_lowercase text meta).map
      OutputParagraph.text).flatten) = nws text :=
  tika_split_nws clean_func merge_short merge_lowercase text meta

theorem pyStrip_ne_nil_nws {p : List Char} (h : (pyStrip p).isEmpty = false) :
    nws p ≠ [] := by
  intro hn
  have hall : ∀ c ∈ p, isSpacePy c = true := by
    intro c hc
    by_contra hcc
    have hm : c ∈ nws p := by
      simp only [nws, List.mem_filter]
      exact ⟨hc, by simpa using hcc⟩
    rw [hn] at hm
    exact absurd hm (List.not_mem_nil c)
  have hdw : p.dropWhile isSpacePy = [] := List.dropWhile_eq_nil_iff.mpr hall
  have hps : pyStrip p = [] := by
    unfold pyStrip
    rw [hdw]
    rfl
  rw [hps] at h
  exact absurd h (by simp)

theorem mergeStep_good {μ : Type} (merge_short merge_lowercase : Bool) (meta : μ)
    (acc : List (OutputParagraph μ) × List Char) (p : List Char)
    (h1 : ∀ o ∈ acc.1, nws o.text ≠ [])
    (h2 : acc.2 = [] ∨ nws acc.2 ≠ []) :
    (∀ o ∈ (mergeStep merge_short merge_lowercase meta acc p).1, nws o.text ≠ [])
    ∧ ((mergeStep merge_short merge_lowercase meta acc p).2 = []
       ∨ nws (mergeStep merge_short merge_lowercase meta acc p).2 ≠ []) := by
  unfold mergeStep
  by_cases he : (pyStrip p).isEmpty
  · simpa [he] using ⟨h1, h2⟩
  · have he2 : (pyStrip p).isEmpty = false := by simpa using he
    have hnp : nws (pyStrip p) ≠ [] := by
      rw [nws_pyStrip]
      exact pyStrip_ne_nil_nws he2
    rw [if_neg he]
    by_cases hc : mergeCond merge_short merge_lowercase (pyStrip p) acc.2
    · rw [if_pos hc]
      refine ⟨h1, Or.inr ?_⟩
      rw [nws_append, nws_cons, if_pos (by decide)]
      intro hh
      exact hnp (List.append_eq_nil.mp hh).2
    · rw [if_neg hc]
      by_cases ha : acc.2.isEmpty
      · rw [if_pos ha]
        exact ⟨h1, Or.inr hnp⟩
      · rw [if_neg ha]
        refine ⟨?_, Or.inr hnp⟩
        intro o ho
        rcases List.mem_append.mp ho with hmo | hmo
        · exact h1 o hmo
        · rw [List.mem_singleton.mp hmo]
          cases h2 with
          | inl hl => rw [hl] at ha; exact absurd rfl ha
          | inr hr => exact hr

theorem mergeLoop_good {μ : Type} (merge_short merge_lowercase : Bool) (meta : μ) :
    ∀ (paras : List (List Char)) (acc : List (OutputParagraph μ) × List Char),
      (∀ o ∈ acc.1, nws o.text ≠ []) → (acc.2 = [] ∨ nws acc.2 ≠ []) →
      (∀ o ∈ (mergeLoop merge_short merge_lowercase meta acc paras).1, nws o.text ≠ [])
      ∧ ((mergeLoop merge_short merge_lowercase meta acc paras).2 = []
         ∨ nws (mergeLoop merge_short merge_lowercase meta acc paras).2 ≠ []) := by
  intro paras
  induction paras with
  | nil => intro acc h1 h2; exact ⟨h1, h2⟩
  | cons p rest ih =>
    intro acc h1 h2
    have hstep := mergeStep_good merge_short merge_lowercase meta acc p h1 h2
    exact ih (mergeStep merge_short merge_lowercase meta acc p) hstep.1 hstep.2

theorem mergePass_good {μ : Type} (merge_short merge_lowercase : Bool) (meta : μ)
    (paras : List (List Char)) :
    ∀ o ∈ mergePass merge_short merge_lowercase meta paras, nws o.text ≠ [] := by
  unfold mergePass
  have h := mergeLoop_good merge_short merge_lowercase meta paras ([], [])
    (by intro o ho; exact absurd ho (List.not_mem_nil o)) (Or.inl rfl)
  by_cases he : (mergeLoop merge_short merge_lowercase meta ([], []) paras).2.isEmpty
  · rw [if_pos he]
    exact h.1
  · rw [if_neg he]
    intro o ho
    rcases List.mem_append.mp ho with hmo | hmo
    · exact h.1 o hmo
    · rw [List.mem_singleton.mp hmo]
      cases h.2 with
      | inl hl => rw [hl] at he; exact absurd rfl he
      | inr hr => exact hr

theorem tika_split_good {μ : Type} (clean_func : Option (List Char → List Char))
    (merge_short merge_lowercase : Bool) (text : List Char) (meta : μ) :
    ∀ o ∈ tika_process clean_func true merge_short merge_lowercase text meta,
      nws o.text ≠ [] := by
  simp only [tika_process, eq_self_iff_true, if_true]
  cases hp : pySplit1 '\x0c' text with
  | nil => exact absurd hp (pySplit1_ne_nil _ _)
  | cons p0 rest =>
    simp only []
    by_cases hb : (buildParas p0 rest).isEmpty
    · rw [if_pos hb]
      intro o ho
      exact absurd ho (List.not_mem_nil o)
    · rw [if_neg hb]
      exact mergePass_good merge_short merge_lowercase meta (buildParas p0 rest)

/-- Claim C6 (counterexample): with `split_paragraphs = false` the full
text is emitted unconditionally, so the empty document yields one
OutputParagraph whose text is empty. -/
theorem C6_counterexample :
    (tika_process (μ := Unit) none false true true ([] : List Char) ()).map
      OutputParagraph.text = [[]] := by decide

/-- Claim C6 (amended): with `split_paragraphs = true` no emitted
OutputParagraph has an empty text (every flush is guarded by
non-emptiness of the accumulator); with `split_paragraphs = false` the
single emitted paragraph copies the whole (optionally cleaned) text,
which can be empty. -/
theorem C6_amended_split_nonempty {μ : Type} (clean_func : Option (List Char → List Char))
    (merge_short merge_lowercase : Bool) (text : List Char) (meta : μ)
    (p : OutputParagraph μ)
    (hmem : p ∈ tika_process clean_func true merge_short merge_lowercase text meta) :
    p.text ≠ [] := by
  intro h
  have hg := tika_split_good clean_func merge_short merge_lowercase text meta p hmem
  rw [h] at hg
  exact hg rfl

/-- Witness for C6_amended_split_nonempty on a concrete document. -/
theorem C6_amended_witness :
    (⟨strC "Hello World Everyone.", ()⟩ : OutputParagraph Unit).text ≠ [] :=
  C6_amended_split_nonempty none true true (strC "Hello World Everyone.") ()
    ⟨strC "Hello World Everyone.", ()⟩ (by decide)

/-- Claim C8: a document whose text consists entirely of whitespace yields
zero OutputParagraphs from the reconstruction (`split_paragraphs = true`). -/
theorem C8_all_whitespace_no_output {μ : Type}
    (clean_func : Option (List Char → List Char))
    (merge_short merge_lowercase : Bool) (text : List Char) (meta : μ)
    (h : ∀ c ∈ text, isSpacePy c = true) :
    tika_process clean_func true merge_short merge_lowercase text meta = [] := by
  have hn : nws text = [] := by
    apply List.filter_eq_nil_iff.mpr
    intro c hc
    simp [h c hc]
  have h5 := tika_split_nws clean_func merge_short merge_lowercase text meta
  rw [hn] at h5
  cases ho : tika_process clean_func true merge_short merge_lowercase text meta with
  | nil => rfl
  | cons o os =>
    have hmem : o ∈ tika_process clean_func true merge_short merge_lowercase text meta := by
      rw [ho]; exact List.mem_cons_self o os
    have hgood := tika_split_good clean_func merge_short merge_lowercase text meta o hmem
    apply absurd _ hgood
    rw [ho] at h5
    simp only [nws, List.filter_flatten] at h5 ⊢
    exact List.flatten_eq_nil_iff.mp h5 _
      (List.mem_map_of_mem _ (List.mem_map_of_mem _ (List.mem_cons_self o os)))

/-- Witness for C8_all_whitespace_no_output at the spec's example input. -/
theorem C8_witness :
    tika_process (μ := Unit) none true true true (strC "   \n\n  \n\n") () = [] :=
  C8_all_whitespace_no_output none true true (strC "   \n\n  \n\n") () (by decide)

theorem getLast?_eq_getLastD {α : Type} (a : α) (l : List α) (d : α) :
    (a :: l).getLast? = some ((a :: l).getLastD d) := by
  induction l generalizing a d with
  | nil => rfl
  | cons b bs ih =>
    rw [List.getLast?_cons_cons, List.getLastD_cons]
    exact ih b a

theorem mergeCondChecked_eq (merge_short merge_lowercase : Bool) (para lp : List Char) :
    mergeCondChecked merge_short merge_lowercase para lp
      = some (mergeCond merge_short merge_lowercase para lp) := by
  unfold mergeCondChecked mergeCond
  by_cases h1 : (merge_short && decide (para.length < 10)) = true
  · simp [h1]
  · have h1f : (merge_short && decide (para.length < 10)) = false := by simpa using h1
    by_cases h2 : wsRuns para < 2
    · simp [h1f, h2]
    · have h2f : decide (wsRuns para < 2) = false := by simpa using h2
      cases merge_lowercase with
      | false => simp [h1f, h2, h2f]
      | true =>
        cases para with
        | nil => exact absurd (by decide) h2
        | cons c cs =>
          have h1p : ¬(merge_short = true ∧ cs.length + 1 < 10) := by
            simpa using h1
          have h1f2 : (merge_short && decide (cs.length + 1 < 10)) = false := by
            simpa using h1f
          by_cases h3 : c.isLower
          · cases lp with
            | nil => simp [h1p, h1f2, h2, h2f, h3]
            | cons a as =>
              rw [getLast?_eq_getLastD a as ' ']
              simp [h1p, h1f2, h2, h2f, h3]
          · simp [h1p, h1f2, h2, h2f, h3]

theorem mergeStepChecked_eq {μ : Type} (merge_short merge_lowercase : Bool) (meta : μ)
    (acc : List (OutputParagraph μ) × List Char) (p : List Char) :
    mergeStepChecked merge_short merge_lowercase meta acc p
      = some (mergeStep merge_short merge_lowercase meta acc p) := by
  unfold mergeStepChecked mergeStep
  by_cases he : (pyStrip p).isEmpty
  · simp [he]
  · rw [if_neg he, if_neg he, mergeCondChecked_eq]
    cases hc : mergeCond merge_short merge_lowercase (pyStrip p) acc.2 with
    | true => simp
    | false =>
      by_cases ha : acc.2.isEmpty <;> simp [ha]

theorem mergeLoopChecked_eq {μ : Type} (merge_short merge_lowercase : Bool) (meta : μ) :
    ∀ (paras : List (List Char)) (acc : List (OutputParagraph μ) × List Char),
      mergeLoopChecked merge_short merge_lowercase meta acc paras
        = some (mergeLoop merge_short merge_lowercase meta acc paras) := by
  intro paras
  induction paras with
  | nil => intro acc; rfl
  | cons p rest ih =>
    intro acc
    unfold mergeLoopChecked mergeLoop
    rw [mergeStepChecked_eq]
    exact ih (mergeStep merge_short merge_lowercase meta acc p)

theorem spliceLoopChecked_eq :
    ∀ (pages : List (List Char)) (acc : List (List Char) × List Char),
      spliceLoopChecked acc pages = some (spliceLoop acc pages) := by
  intro pages
  induction pages with
  | nil => intro acc; rfl
  | cons page rest ih =>
    intro acc
    unfold spliceLoopChecked spliceLoop
    cases hpp : pySplit2 '\n' '\n' page with
    | nil => exact absurd hpp (pySplit2_ne_nil _ _ _)
    | cons q0 qrest =>
      simp only [List.isEmpty_cons, List.head?_cons, List.tail_cons,
        Bool.false_eq_true, if_false]
      rw [getLast?_eq_getLastD _ _ []]
      exact ih _

/-- Claim C9: the reconstruction is total — running the body with every
Python indexing (`pages[0]`, `paras.pop(-1)`, `page_paras[0]`,
`page_paras.pop(-1)`, `para[0]`, `last_para[-1]`) modelled as a fallible
access under the source's guards never fails, for every input text and
every option setting: the checked interpreter always returns `some` of
the total function's result. -/
theorem C9_reconstruction_total {μ : Type} (clean_func : Option (List Char → List Char))
    (split_paragraphs merge_short merge_lowercase : Bool)
    (text : List Char) (meta : μ) :
    tika_processChecked clean_func split_paragraphs merge_short merge_lowercase text meta
      = some (tika_process clean_func split_paragraphs merge_short merge_lowercase
          text meta) := by
  cases split_paragraphs with
  | false => rfl
  | true =>
    simp only [tika_processChecked, tika_process, eq_self_iff_true, if_true]
    cases hp : pySplit1 '\x0c' text with
    | nil => rfl
    | cons p0 rest =>
      simp only [List.isEmpty_cons, List.head?_cons, List.tail_cons,
        Bool.false_eq_true, if_false]
      cases hps : pySplit2 '\n' '\n' p0 with
      | nil => exact absurd hps (pySplit2_ne_nil _ _ _)
      | cons q0 qrest =>
        simp only [List.isEmpty_cons, Bool.false_eq_true, if_false]
        rw [getLast?_eq_getLastD _ _ []]
        simp only []
        rw [spliceLoopChecked_eq]
        simp only []
        have hbuild : buildParas p0 rest
            = (if (spliceLoop ((q0 :: qrest).dropLast, (q0 :: qrest).getLastD []) rest).2.isEmpty
               then (spliceLoop ((q0 :: qrest).dropLast, (q0 :: qrest).getLastD []) rest).1
               else (spliceLoop ((q0 :: qrest).dropLast, (q0 :: qrest).getLastD []) rest).1
                 ++ [(spliceLoop ((q0 :: qrest).dropLast, (q0 :: qrest).getLastD []) rest).2]) := by
          simp only [buildParas, hps, List.isEmpty_cons, Bool.false_eq_true, if_false]
        rw [← hbuild]
        cases hb : buildParas p0 rest with
        | nil => rfl
        | cons q qs =>
          simp only []
          rw [mergeLoopChecked_eq]
          simp only [mergePass]
          rfl
